import Mathlib

/-
Verification of the `mux` application supervisor (a development-time
multi-app HTTP front door written in Go) against its natural-language
specification.  Go strings are modelled as `List Char`; filesystem paths
as lists of path components (`List (List Char)`); machine state (the app
registry, live child processes, open watchers, the registry mutex) as an
explicit record that the operations thread through.  Each operation is a
direct translation of the corresponding Go function.
-/

namespace Mux

/-! ## String model

Go strings become `List Char`.  The helpers below translate the exact
`strings` package functions the source uses. -/

/-- Go `strings.Split(s, ":")[0]`: the segment of `s` before the first
colon (the whole string when there is no colon). -/
def beforeColon (s : List Char) : List Char :=
  s.takeWhile (fun c => c ≠ ':')

/-- Go `strings.HasSuffix(s, suf)`: `len(s) >= len(suf)` and the final
slice of `s` equals `suf`. -/
def hasSuffix (s suf : List Char) : Bool :=
  decide (suf.length ≤ s.length) && (s.drop (s.length - suf.length) == suf)

/-- Go `strings.TrimSuffix(s, suf)`: drop one trailing occurrence of
`suf` when present, otherwise return `s` unchanged. -/
def trimSuffix (s suf : List Char) : List Char :=
  if hasSuffix s suf then s.take (s.length - suf.length) else s

/-- The handler's app-name computation (part_000 lines 252-255 and
main.go lines 85-88):
`name := TrimSuffix(TrimSuffix(Split(r.Host, ":")[0], domain), ".")`,
then `"www"` when the remainder is empty. -/
def appName (host domain : List Char) : List Char :=
  let n := trimSuffix (trimSuffix (beforeColon host) domain) ['.']
  if n = [] then "www".toList else n

/-! ## Spec-side restatement of the name rule (for the C4 refinement) -/

/-- Modelled from the spec's words (§4.8, step 1): the Host header "up
to the first ':'", written as primitive recursion that stops at the
first colon.  Comparison point for C4 only. -/
def upToColon : List Char → List Char
  | [] => []
  | c :: cs => if c = ':' then [] else c :: upToColon cs

/-- Modelled from the spec's words (§4.8, step 2): strip one trailing
occurrence of `suf`, phrased by peeling `suf.length` characters off the
reversed string when `suf` is a suffix.  Comparison point for C4 only. -/
def stripTrailing (s suf : List Char) : List Char :=
  if suf <:+ s then (s.reverse.drop suf.length).reverse else s

/-- Modelled from the spec's words (C4): take the Host up to the first
':', strip one trailing occurrence of the configured domain, then one
trailing '.', and substitute "www" if the remainder is empty. -/
def appNameSpec (host domain : List Char) : List Char :=
  let n := stripTrailing (stripTrailing (upToColon host) domain) ['.']
  if n = [] then "www".toList else n

/-! ## Procfile reader (part_000 lines 144-160, main.go lines 53-68) -/

/-- Go `strings.HasPrefix(s, p)`: the first `len(p)` characters of `s`
equal `p` (false when `s` is shorter). -/
def startsWith (s p : List Char) : Bool :=
  s.take p.length == p

/-- Go `strings.TrimSpace`: drop leading and trailing whitespace. -/
def trimSpace (s : List Char) : List Char :=
  ((s.dropWhile Char.isWhitespace).reverse.dropWhile Char.isWhitespace).reverse

/-- The `web:` marker the scanner looks for. -/
def webMarker : List Char := "web:".toList

/-- The scanner loop of `start` (part_000 lines 151-157): scan the
lines in order; at the first line carrying the `web:` marker, take the
line with the 4-character marker dropped (`s.Text()[4:]`) and
whitespace trimmed, and stop (`break`).  Yields `[]` when no line
carries the marker. -/
def scanWeb : List (List Char) → List Char
  | [] => []
  | l :: ls => if startsWith l webMarker then trimSpace (l.drop 4) else scanWeb ls

/-- The reader's failure class.  The Go code returns the raw
`os.Open` error for a missing file and a `"NO web: in .../Procfile"`
error for an empty scan result; spec §7 groups both under the single
error kind `NoWebEntry`, which is how the class is modelled here. -/
inductive ProcErr
  | noWebEntry
deriving DecidableEq

/-- The Procfile-reading half of `start` (part_000 lines 144-160):
`none` models `os.Open` failing (missing file), `some lines` the
scanned file content.  An empty command after the scan is an error;
otherwise the trimmed command is returned. -/
def readProcfile (file : Option (List (List Char))) : Except ProcErr (List Char) :=
  match file with
  | none => Except.error ProcErr.noWebEntry
  | some lines =>
    let cmdStr := scanWeb lines
    if cmdStr = [] then Except.error ProcErr.noWebEntry else Except.ok cmdStr

/-! ## Ignore matcher (part_000 lines 111-125)

A filesystem path is modelled as its list of components (Go's
`strings.Split(path, string(filepath.Separator))`).  The compiled
`.watch` pattern set (`*ignore.GitIgnore`, an external library value)
is modelled as its `MatchesPath` verdict: a function from the path to
`Bool`; `none` models the `nil` matcher returned when `.watch` is
absent. -/

/-- One path component as rendered in a pattern file. -/
def pathText (path : List (List Char)) : List Char :=
  List.intercalate ['/'] path

/-- The component loop of `matchInverted`: for each component that
begins with '.', return `false` early when `ig.MatchesPath(path)` is
false; after the loop, return `ig.MatchesPath(path)`.  `m` is the
matcher, `path` the full event path, and the third argument the
components still to visit. -/
def miLoop (m : List (List Char) → Bool) (path : List (List Char)) :
    List (List Char) → Bool
  | [] => m path
  | part :: rest =>
    if startsWith part ['.'] && !(m path) then false else miLoop m path rest

/-- `matchInverted` (part_000 lines 111-125): `nil` matcher means no
match; otherwise run the dot-component loop over the path's components
and finish with the plain pattern-set verdict. -/
def matchInverted (path : List (List Char))
    (ig : Option (List (List Char) → Bool)) : Bool :=
  match ig with
  | none => false
  | some m => miLoop m path path

/-- A pattern set matches a path *explicitly* when some pattern is
literally that path (spec §4.4's "the full path is explicitly matched
by a pattern"). -/
def explicitlyMatched (patterns : List (List Char)) (path : List (List Char)) : Bool :=
  patterns.contains (pathText path)

/-! ## Watcher event handling (part_000 lines 215-248)

The body of the watcher goroutine's event case, abstracted over the
side effects it can perform: stopping the app via the registry and
extending the watched set to a subtree.  The effects are recorded in
program order. -/

/-- A filesystem event as the watcher sees it: its path (split into
components), whether its op has the Create bit, and whether
`os.Stat(event.Name)` succeeded and reported a directory. -/
structure FsEvent where
  path : List (List Char)
  isCreate : Bool
  isDir : Bool
deriving DecidableEq

/-- The watcher's side effects, in program order. -/
inductive WAction
  | stop
  | addWatch (path : List (List Char))
deriving DecidableEq

/-- One pass of the watcher goroutine over an event (part_000 lines
218-240): stop when the path is the app's `.watch` file; on a Create
of a directory whose path matches, extend the watched set
(`addRecursive`); then stop whenever the path matches.  `dotWatch` is
the path of `dir/.watch`, `ig` the compiled pattern set. -/
def handleEvent (dotWatch : List (List Char))
    (ig : Option (List (List Char) → Bool)) (e : FsEvent) : List WAction :=
  (if e.path = dotWatch then [WAction.stop] else [])
  ++ (if e.isCreate && e.isDir && matchInverted e.path ig
      then [WAction.addWatch e.path] else [])
  ++ (if matchInverted e.path ig then [WAction.stop] else [])

/-! ## Port allocator (part_000 lines 87-91, main.go lines 32-36) -/

/-- A successfully bound `net.Listen` result: the ephemeral port the
kernel picked. -/
structure GoListener where
  port : Nat
deriving DecidableEq

/-- What `freePort` can do: return a port number, or dereference the
`nil` listener and panic at runtime. -/
inductive FreePortOutcome
  | port (p : Nat)
  | nilPanic
deriving DecidableEq

/-- `freePort` (part_000 lines 87-91): `l, _ := net.Listen(...)`
discards the error; on success the listener is closed and its port
returned; on failure `l` is `nil` and `l.Addr()` (and the deferred
`l.Close()`) dereference a nil interface — a runtime panic, not an
error return. -/
def freePort (listenResult : Option GoListener) : FreePortOutcome :=
  match listenResult with
  | some l => FreePortOutcome.port l.port
  | none => FreePortOutcome.nilPanic

/-! ## Directory resolution and routing (part_000 lines 252-264)

`filepath.Join(root, name)` joins and lexically cleans the path.  The
root is modelled as the component list of the already-cleaned absolute
directory (`filepath.Abs` in `main` guarantees this), and cleaning
processes the name's slash-separated components against it: empty and
`.` components disappear, `..` pops the last component (the cleaning
an absolute path applies). -/

/-- Split a name into slash-separated components
(`strings.Split(name, "/")`). -/
def splitSlash (s : List Char) : List (List Char) :=
  s.splitOn '/'

/-- One step of `filepath.Clean`'s lexical processing. -/
def cleanStep (acc : List (List Char)) (c : List Char) : List (List Char) :=
  if c = [] ∨ c = ['.'] then acc
  else if c = ['.', '.'] then acc.dropLast
  else acc ++ [c]

/-- `filepath.Join(root, name)` for a cleaned absolute `root`: fold the
name's components into the root with `Clean`'s lexical rules. -/
def resolveDir (root : List (List Char)) (name : List Char) : List (List Char) :=
  (splitSlash name).foldl cleanStep root

/-- A directory is outside the root when the root's components are not
a prefix of its components. -/
def isOutside (root dir : List (List Char)) : Prop :=
  ¬ root <+: dir

/-- The filesystem as the handler's two `os.Stat` calls observe it:
whether a directory exists, and whether it holds a Procfile. -/
structure FsView where
  isDir : List (List Char) → Bool
  hasProcfile : List (List Char) → Bool

/-- What the handler does with a request before touching the registry. -/
inductive RouteAction
  | notFound
  | static (dir : List (List Char))
  | dispatch (dir : List (List Char)) (name : List Char)
deriving DecidableEq

/-- The routing prefix of `handler` (part_000 lines 252-264): compute
the name from the Host header, join it onto the root, 404 unless the
result is a directory, serve it statically when it has no Procfile,
and otherwise dispatch to the registry under that name. -/
def route (fs : FsView) (root : List (List Char)) (domain host : List Char) :
    RouteAction :=
  if fs.isDir (resolveDir root (appName host domain)) = false then RouteAction.notFound
  else if fs.hasProcfile (resolveDir root (appName host domain)) = false
  then RouteAction.static (resolveDir root (appName host domain))
  else RouteAction.dispatch (resolveDir root (appName host domain)) (appName host domain)

/-! ## Supervisor state (registry, children, watchers, mutex)

The app registry is Go's `map[string]*appInfo`, modelled as an
association list whose operations mirror map semantics; `live` holds
the pids of running child processes, `watchers` the open watcher
handles, `muHeld` whether the (non-reentrant) `sync.Mutex` `mu` is
held, `spawns` counts `cmd.Start()` calls, and `nextId` supplies fresh
pids and watcher ids.  Because the handler's critical section runs
entirely under `mu`, it is modelled as one atomic step; an operation
returns `none` when it blocks forever (locking a mutex that is already
held). -/

/-- The fields of `appInfo` the claims are about: the key, the child's
pid, the watcher handle, and `t` (lastUsed). -/
structure AppRec where
  name : List Char
  pid : Nat
  wid : Nat
  t : Nat
deriving DecidableEq

/-- The supervisor's shared mutable state. -/
structure MuxState where
  apps : List (List Char × AppRec)
  live : List Nat
  watchers : List Nat
  muHeld : Bool
  spawns : Nat
  nextId : Nat
deriving DecidableEq

/-- Registry lookup `apps[name]`. -/
def findRec (k : List Char) : List (List Char × AppRec) → Option AppRec
  | [] => none
  | p :: rest => if p.1 = k then some p.2 else findRec k rest

/-- Drop every binding for key `k` (the effect of `delete(apps, k)`,
and the first half of a map assignment). -/
def removeKey (k : List Char) (m : List (List Char × AppRec)) :
    List (List Char × AppRec) :=
  m.filter (fun p => decide (p.1 ≠ k))

/-- Map assignment `apps[k] = v`: `k` now maps to `v`, all other keys
unchanged. -/
def insertRec (k : List Char) (v : AppRec) (m : List (List Char × AppRec)) :
    List (List Char × AppRec) :=
  (k, v) :: removeKey k m

/-- The registry holds at most one record per name when its key list
has no duplicates. -/
def keysNodup (m : List (List Char × AppRec)) : Prop :=
  (m.map Prod.fst).Nodup

/-- `idleTTL = 10 * time.Minute`, in seconds. -/
def idleTTL : Nat := 600

/-- The reaper period (`time.Tick(30 * time.Second)`), in seconds. -/
def tickPeriod : Nat := 30

/-- How the environment can make one launch turn out; each constructor
is one exit path of `start` (part_000 lines 142-190). -/
inductive LaunchEnv
  | procfileMissing
  | emptyWebCommand
  | spawnFail
  | probeTimeout
  | ready
deriving DecidableEq

/-- The errors `start` can return, one per exit path. -/
inductive LaunchErr
  | openFailed
  | noWeb
  | spawnFailed
  | startupTimeout
deriving DecidableEq

/-- `cmd.Start()` succeeding: the child joins the live set, the spawn
counter advances, and the fresh pid is returned. -/
def spawnChild (s : MuxState) : MuxState × Nat :=
  ({ s with live := s.live ++ [s.nextId], spawns := s.spawns + 1,
            nextId := s.nextId + 1 }, s.nextId)

/-- `startWatcher` opening a new `fsnotify` watcher for the app. -/
def openWatcher (s : MuxState) : MuxState × Nat :=
  ({ s with watchers := s.watchers ++ [s.nextId], nextId := s.nextId + 1 }, s.nextId)

/-- `start(name)` (part_000 lines 142-190).  Error paths return the
error with the state as the code leaves it; note that on
`.probeTimeout` the child has already been spawned (`cmd.Start()`
succeeded) and `waitPort` failing merely returns the error — the code
does not kill the child.  On `.ready` the child is spawned, the
readiness probe succeeds, the watcher is started (line 187), and the
record is assembled with `t = time.Now()`. -/
def startApp (s : MuxState) (name : List Char) (now : Nat) (env : LaunchEnv) :
    MuxState × Except LaunchErr AppRec :=
  match env with
  | LaunchEnv.procfileMissing => (s, Except.error LaunchErr.openFailed)
  | LaunchEnv.emptyWebCommand => (s, Except.error LaunchErr.noWeb)
  | LaunchEnv.spawnFail => (s, Except.error LaunchErr.spawnFailed)
  | LaunchEnv.probeTimeout =>
    let s1 := (spawnChild s).1
    (s1, Except.error LaunchErr.startupTimeout)
  | LaunchEnv.ready =>
    let sp := spawnChild s
    let ow := openWatcher sp.1
    (ow.1, Except.ok { name := name, pid := sp.2, wid := ow.2, t := now })

/-- `stopApp` (part_000 lines 192-201): it locks `mu` first, so when
the caller already holds `mu` the call blocks forever (`none`) —
`sync.Mutex` is not reentrant.  Otherwise it kills the child (a kill
of an already-dead pid is an error the code discards), closes the
watcher, deletes the registry entry, and unlocks. -/
def stopApp (s : MuxState) (a : AppRec) : Option MuxState :=
  if s.muHeld then none
  else some { s with
    live := s.live.filter (fun p => decide (p ≠ a.pid)),
    watchers := s.watchers.filter (fun w => decide (w ≠ a.wid)),
    apps := removeKey a.name s.apps,
    muHeld := false }

/-- What the handler's critical section sends back. -/
inductive Response
  | proxied (name : List Char)
  | err500 (e : LaunchErr)
deriving DecidableEq

/-- The handler's critical section (part_000 lines 265-279), one atomic
step because `mu` is held throughout: look the name up; on a hit update
`t` (`a.t = time.Now()` through the shared pointer) and proxy; on a
miss launch — returning the error as a 500 without touching the
registry when the launch fails, and inserting the new record under the
same lock hold when it succeeds.  `none` models the caller blocking
forever on a held mutex. -/
def handlerLocked (s : MuxState) (name : List Char) (now : Nat) (env : LaunchEnv) :
    Option (MuxState × Response) :=
  if s.muHeld then none
  else
    match findRec name s.apps with
    | some a =>
      some ({ s with apps := insertRec name { a with t := now } s.apps,
                     muHeld := false }, Response.proxied name)
    | none =>
      match startApp { s with muHeld := true } name now env with
      | (s1, Except.error e) => some ({ s1 with muHeld := false }, Response.err500 e)
      | (s1, Except.ok r) =>
        some ({ s1 with apps := insertRec name { r with t := now } s1.apps,
                        muHeld := false }, Response.proxied name)

/-- The reaper's sweep over the registry entries (part_000 lines
293-300), entered with `mu` held: each record idle longer than
`idleTTL` is stopped via `stopApp` — which itself locks `mu`, so the
sweep blocks forever (`none`) at the first idle record; if no record
is idle the sweep completes and unlocks. -/
def reapLoop (now : Nat) (s : MuxState) : List (List Char × AppRec) → Option MuxState
  | [] => some { s with muHeld := false }
  | e :: rest =>
    if idleTTL < now - e.2.t then
      match stopApp s e.2 with
      | none => none
      | some s1 => reapLoop now s1 rest
    else reapLoop now s rest

/-- One reaper tick (part_000 lines 291-302): take `mu`, sweep the
registry, release `mu`. -/
def reapTick (now : Nat) (s : MuxState) : Option MuxState :=
  if s.muHeld then none
  else reapLoop now { s with muHeld := true } s.apps

/-! ## The router name rule (C4) -/

theorem beforeColon_eq_upToColon (s : List Char) : beforeColon s = upToColon s := by
  induction s with
  | nil => rfl
  | cons c cs ih =>
    by_cases h : c = ':'
    · simp [beforeColon, upToColon, h, List.takeWhile]
    · simpa [beforeColon, upToColon, h, List.takeWhile] using ih

theorem hasSuffix_iff (s suf : List Char) : hasSuffix s suf = true ↔ suf <:+ s := by
  constructor
  · intro h
    simp only [hasSuffix, Bool.and_eq_true, decide_eq_true_eq, beq_iff_eq] at h
    refine ⟨s.take (s.length - suf.length), ?_⟩
    have hsplit : s.take (s.length - suf.length) ++ suf
        = s.take (s.length - suf.length) ++ s.drop (s.length - suf.length) := by
      rw [h.2]
    rw [hsplit, List.take_append_drop]
  · rintro ⟨t, rfl⟩
    simp [hasSuffix, List.length_append, List.drop_left]

theorem trimSuffix_eq_stripTrailing (s suf : List Char) :
    trimSuffix s suf = stripTrailing s suf := by
  unfold trimSuffix stripTrailing
  by_cases h : suf <:+ s
  · rw [if_pos ((hasSuffix_iff s suf).mpr h), if_pos h]
    obtain ⟨t, rfl⟩ := h
    rw [List.length_append, Nat.add_sub_cancel, List.take_left, List.reverse_append]
    rw [show suf.length = suf.reverse.length from (List.length_reverse suf).symm]
    rw [List.drop_left, List.reverse_reverse]
  · rw [if_neg (by simpa [hasSuffix_iff] using h), if_neg h]

/-- C4: for every inbound request, the app name is computed by taking
the Host header up to the first ':', stripping one trailing occurrence
of the configured domain, then one trailing '.', and substituting "www"
if the remainder is empty.  The handler's computation (`appName`,
translated from the source) agrees with the spec's description
(`appNameSpec`) on every host and domain. -/
theorem c4_appName_matches_spec (host domain : List Char) :
    appName host domain = appNameSpec host domain := by
  unfold appName appNameSpec
  rw [beforeColon_eq_upToColon, trimSuffix_eq_stripTrailing, trimSuffix_eq_stripTrailing]

/-! ## The Procfile reader (C5) -/

theorem scanWeb_first (pre : List (List Char)) (l : List Char) (post : List (List Char))
    (hpre : ∀ x ∈ pre, startsWith x webMarker = false)
    (hl : startsWith l webMarker = true) :
    scanWeb (pre ++ l :: post) = trimSpace (l.drop 4) := by
  induction pre with
  | nil => simp [scanWeb, hl]
  | cons p ps ih =>
    have hp : startsWith p webMarker = false := hpre p (by simp)
    simp only [List.cons_append, scanWeb, hp, if_neg Bool.false_ne_true]
    exact ih (fun x hx => hpre x (by simp [hx]))

/-- C5: the Procfile reader returns the first line carrying the `web:`
marker, with the 4-character marker dropped and surrounding whitespace
trimmed; a missing file or an empty result fails with `NoWebEntry`;
lines before the first `web:` line are skipped and lines after it —
later `web:` lines included — never influence the result. -/
theorem c5_procfile_reader (pre : List (List Char)) (l : List Char) (post : List (List Char))
    (hpre : ∀ x ∈ pre, startsWith x webMarker = false)
    (hl : startsWith l webMarker = true) :
    readProcfile none = Except.error ProcErr.noWebEntry
    ∧ readProcfile (some (pre ++ l :: post))
        = (if trimSpace (l.drop 4) = [] then Except.error ProcErr.noWebEntry
           else Except.ok (trimSpace (l.drop 4)))
    ∧ ∀ post2 : List (List Char),
        readProcfile (some (pre ++ l :: post)) = readProcfile (some (pre ++ l :: post2)) := by
  refine ⟨rfl, ?_, ?_⟩
  · simp only [readProcfile, scanWeb_first pre l post hpre hl]
  · intro post2
    simp only [readProcfile, scanWeb_first pre l post hpre hl,
      scanWeb_first pre l post2 hpre hl]

/-- Witness for C5 at a concrete Procfile: a comment line, then
`web:  bundle exec rails s`, then a second `web: other` line that the
reader never considers; the returned command is the trimmed text. -/
theorem c5_procfile_reader_witness :
    readProcfile (some (["# comment".toList, "web:  bundle exec rails s".toList,
        "web: other".toList]))
      = Except.ok "bundle exec rails s".toList := by
  have h := c5_procfile_reader ["# comment".toList] "web:  bundle exec rails s".toList
    ["web: other".toList] (by decide) (by decide)
  rw [show (["# comment".toList, "web:  bundle exec rails s".toList, "web: other".toList])
      = ["# comment".toList] ++ "web:  bundle exec rails s".toList :: ["web: other".toList]
      from rfl, h.2.1]
  rfl

/-! ## The ignore matcher (C6) -/

theorem miLoop_eq (m : List (List Char) → Bool) (path rest : List (List Char)) :
    miLoop m path rest = m path := by
  induction rest with
  | nil => rfl
  | cons part rest ih =>
    cases h : m path with
    | true => simp [miLoop, h, ih]
    | false =>
      cases hd : startsWith part ['.'] with
      | true => simp [miLoop, h, hd]
      | false => simp [miLoop, h, hd, ih]

/-- C6: the claim requires that a path containing a dot-prefixed
component triggers a reload only when a pattern explicitly matches the
full path.  The code violates this: `matchInverted`'s dot-component
check tests the same `MatchesPath` verdict as its final return, so it
never changes the result — `matchInverted` equals the plain pattern-set
verdict for every matcher and path.  In particular, for the pattern set
`*` (whose gitignore semantics match any name, dotfiles included) and
the single-component path `.env`, the code reloads even though no
pattern explicitly matches `.env`. -/
theorem c6_dotfile_rule_ineffective :
    (∀ (path : List (List Char)) (m : List (List Char) → Bool),
      matchInverted path (some m) = m path)
    ∧ matchInverted [".env".toList] (some (fun _ => true)) = true
    ∧ explicitlyMatched ["*".toList] [".env".toList] = false := by
  exact ⟨fun path m => miLoop_eq m path path, rfl, by decide⟩

/-! ## Watcher event evaluation (C7) -/

/-- Counterexample to C7: a directory-creation event whose path matches
the pattern set (here app/newdir under matcher that accepts it, with
`.watch` at app/.watch) makes the watcher first extend coverage and
then stop the app — the action list ends in `stop`, refuting "the
creation event does not by itself stop (reload) the app". -/
theorem c7_create_stops_counterexample :
    handleEvent ["app".toList, ".watch".toList] (some (fun _ => true))
        { path := ["app".toList, "newdir".toList], isCreate := true, isDir := true }
      = [WAction.addWatch ["app".toList, "newdir".toList], WAction.stop] := by
  rfl

/-- C7 (amended): for every directory-creation event whose path matches
the pattern set and is not the `.watch` file itself, the watcher first
extends its watched set to cover the new subtree and then evaluates the
event like any other matching event, so the creation event itself also
stops (reloads) the app. -/
theorem c7_create_extends_then_stops (dotWatch : List (List Char))
    (m : List (List Char) → Bool) (e : FsEvent)
    (hne : e.path ≠ dotWatch) (hc : e.isCreate = true) (hd : e.isDir = true)
    (hm : matchInverted e.path (some m) = true) :
    handleEvent dotWatch (some m) e = [WAction.addWatch e.path, WAction.stop] := by
  simp [handleEvent, hne, hc, hd, hm]

/-- Witness for the amended C7 at a concrete event: creating directory
app/src under the always-true matcher appends the subtree to the watch
set and then stops the app. -/
theorem c7_create_extends_then_stops_witness :
    handleEvent ["app".toList, ".watch".toList] (some (fun _ => true))
        { path := ["app".toList, "src".toList], isCreate := true, isDir := true }
      = [WAction.addWatch ["app".toList, "src".toList], WAction.stop] :=
  c7_create_extends_then_stops ["app".toList, ".watch".toList] (fun _ => true)
    { path := ["app".toList, "src".toList], isCreate := true, isDir := true }
    (by decide) rfl rfl (by decide)

/-! ## The port allocator (C9) -/

/-- C9: the claim says a failed port reservation yields a
`ResourceUnavailable` error surfaced as a 500 response.  The code has
no error path at all: on a successful bind it returns the port, and
when `net.Listen` fails it ignores the error and panics on the nil
listener, so no error value ever reaches the triggering request. -/
theorem c9_freePort_panics_on_bind_failure :
    freePort none = FreePortOutcome.nilPanic
    ∧ ∀ l : GoListener, freePort (some l) = FreePortOutcome.port l.port :=
  ⟨rfl, fun _ => rfl⟩

/-! ## Directory traversal (C10) -/

/-- Counterexample to C10's examples, at root `/home/emily/Web` and
domain `localhost`: the Host value `..` strips to name `.` and resolves
to the root itself — not outside it — and the Host `evil.com` (which
does not end in the domain) resolves to `root/evil.com`, also under the
root.  Neither of the claim's example Host families escapes the root. -/
theorem c10_examples_counterexample :
    appName "..".toList "localhost".toList = ".".toList
    ∧ resolveDir ["home".toList, "emily".toList, "Web".toList]
        (appName "..".toList "localhost".toList)
      = ["home".toList, "emily".toList, "Web".toList]
    ∧ ["home".toList, "emily".toList, "Web".toList]
        <+: resolveDir ["home".toList, "emily".toList, "Web".toList]
              (appName "..".toList "localhost".toList)
    ∧ ["home".toList, "emily".toList, "Web".toList]
        <+: resolveDir ["home".toList, "emily".toList, "Web".toList]
              (appName "evil.com".toList "localhost".toList) := by
  refine ⟨by decide, by decide, ?_, ?_⟩
  · rw [show resolveDir ["home".toList, "emily".toList, "Web".toList]
        (appName "..".toList "localhost".toList)
        = ["home".toList, "emily".toList, "Web".toList] from by decide]
  · exact ⟨["evil.com".toList], by decide⟩

/-- C10 (amended): the handler derives the served directory as
`filepath.Join(root, name)` from the Host header without validating
that the name is a single non-dotted component: the Host value `...`
strips to name `..`, which resolves to the parent of the root — outside
the root — and when that parent is a directory without a Procfile the
handler statically serves it (and would likewise stat or launch there). -/
theorem c10_amended_traversal (fs : FsView) (root : List (List Char))
    (hroot : root ≠ [])
    (hdir : fs.isDir root.dropLast = true)
    (hpf : fs.hasProcfile root.dropLast = false) :
    appName "...".toList "localhost".toList = "..".toList
    ∧ resolveDir root (appName "...".toList "localhost".toList) = root.dropLast
    ∧ isOutside root (resolveDir root (appName "...".toList "localhost".toList))
    ∧ route fs root "localhost".toList "...".toList = RouteAction.static root.dropLast := by
  have hname : appName "...".toList "localhost".toList = "..".toList := by decide
  have hres : resolveDir root (appName "...".toList "localhost".toList) = root.dropLast := by
    rw [hname]; rfl
  have hout : isOutside root root.dropLast := by
    intro hpre
    have hlen := hpre.length_le
    rw [List.length_dropLast] at hlen
    have : 0 < root.length := List.length_pos.mpr hroot
    omega
  refine ⟨hname, hres, hres ▸ hout, ?_⟩
  unfold route
  rw [hres, hdir, hpf]
  simp

/-- Witness for the amended C10 at concrete values: root
`/home/emily/Web`, Host `...`, a filesystem where `/home/emily` is a
directory without a Procfile — the handler statically serves
`/home/emily`, outside the root. -/
theorem c10_amended_traversal_witness :
    route { isDir := fun _ => true, hasProcfile := fun _ => false }
        ["home".toList, "emily".toList, "Web".toList] "localhost".toList "...".toList
      = RouteAction.static ["home".toList, "emily".toList]
    ∧ isOutside ["home".toList, "emily".toList, "Web".toList]
        (resolveDir ["home".toList, "emily".toList, "Web".toList]
          (appName "...".toList "localhost".toList)) := by
  have h := c10_amended_traversal
    { isDir := fun _ => true, hasProcfile := fun _ => false }
    ["home".toList, "emily".toList, "Web".toList]
    (by decide) rfl rfl
  exact ⟨h.2.2.2, h.2.2.1⟩

/-! ## Registry lemmas -/

theorem filter_twice {α : Type} (p : α → Bool) (l : List α) :
    (l.filter p).filter p = l.filter p := by
  induction l with
  | nil => rfl
  | cons x xs ih =>
    cases h : p x with
    | true => simp [List.filter_cons, h, ih]
    | false => simp [List.filter_cons, h, ih]

theorem removeKey_idem (k : List Char) (m : List (List Char × AppRec)) :
    removeKey k (removeKey k m) = removeKey k m :=
  filter_twice _ m

theorem keysNodup_removeKey (k : List Char) (m : List (List Char × AppRec))
    (h : keysNodup m) : keysNodup (removeKey k m) :=
  ((List.filter_sublist m).map Prod.fst).nodup h

theorem not_mem_keys_removeKey (k : List Char) (m : List (List Char × AppRec)) :
    k ∉ (removeKey k m).map Prod.fst := by
  intro hmem
  simp only [removeKey, List.mem_map, List.mem_filter, decide_eq_true_eq] at hmem
  obtain ⟨p, ⟨_, hne⟩, hk⟩ := hmem
  exact hne hk

theorem keysNodup_insertRec (k : List Char) (v : AppRec)
    (m : List (List Char × AppRec)) (h : keysNodup m) :
    keysNodup (insertRec k v m) := by
  unfold keysNodup insertRec
  rw [List.map_cons, List.nodup_cons]
  exact ⟨not_mem_keys_removeKey k m, keysNodup_removeKey k m h⟩

theorem findRec_insertRec (k : List Char) (v : AppRec) (m : List (List Char × AppRec)) :
    findRec k (insertRec k v m) = some v := by
  simp [findRec, insertRec]

/-! ## C8: stop is idempotent -/

/-- C8: after a first `stopApp` (from a context not holding `mu`) has
removed the record, killed the child, and closed the watcher, a second
`stopApp` of the same app completes and leaves the whole state —
registry, live children, and open watchers — unchanged, so further
stops of the same name commute and are no-ops. -/
theorem c8_stop_idempotent (s : MuxState) (a : AppRec) (s1 : MuxState)
    (hmu : s.muHeld = false) (h : stopApp s a = some s1) :
    stopApp s1 a = some s1 := by
  unfold stopApp at h
  rw [hmu] at h
  simp only [Bool.false_eq_true, if_false, Option.some.injEq] at h
  subst h
  unfold stopApp
  simp only [Bool.false_eq_true, if_false, Option.some.injEq]
  simp [filter_twice, removeKey_idem]

/-- Witness for C8: stopping the app `hello` twice from a concrete
one-app state; the second stop returns the state of the first
unchanged. -/
theorem c8_stop_idempotent_witness :
    stopApp
        { apps := [], live := [], watchers := [], muHeld := false,
          spawns := 1, nextId := 2 }
        { name := "hello".toList, pid := 0, wid := 1, t := 0 }
      = some { apps := [], live := [], watchers := [], muHeld := false,
               spawns := 1, nextId := 2 } :=
  c8_stop_idempotent
    { apps := [("hello".toList, { name := "hello".toList, pid := 0, wid := 1, t := 0 })],
      live := [0], watchers := [1], muHeld := false, spawns := 1, nextId := 2 }
    { name := "hello".toList, pid := 0, wid := 1, t := 0 }
    { apps := [], live := [], watchers := [], muHeld := false, spawns := 1, nextId := 2 }
    rfl (by decide)

/-! ## C1: launch failure cleanup -/

/-- C1: at a launch whose readiness probe times out, the handler's
critical section returns a 500 carrying the `StartupTimeout` error,
inserts no record (the registry is unchanged, so the next request for
the name misses and retries from scratch) — but the spawned child is
still in the live set when the error returns: the code never kills it,
contradicting the claim's (and spec §4.2/§4.6's) required teardown. -/
theorem c1_timeout_leaks_child (s : MuxState) (name : List Char) (now : Nat)
    (hmu : s.muHeld = false) (hnone : findRec name s.apps = none) :
    ∃ s1 : MuxState,
      handlerLocked s name now LaunchEnv.probeTimeout
        = some (s1, Response.err500 LaunchErr.startupTimeout)
      ∧ s1.apps = s.apps
      ∧ findRec name s1.apps = none
      ∧ s1.live = s.live ++ [s.nextId]
      ∧ s1.spawns = s.spawns + 1
      ∧ s1.muHeld = false := by
  have heq : handlerLocked s name now LaunchEnv.probeTimeout
      = some ({ s with live := s.live ++ [s.nextId], spawns := s.spawns + 1, nextId := s.nextId + 1, muHeld := false },
              Response.err500 LaunchErr.startupTimeout) := by
    unfold handlerLocked
    rw [hmu]
    simp only [Bool.false_eq_true, if_false]
    rw [hnone]
    rfl
  exact ⟨_, heq, rfl, hnone, rfl, rfl, rfl⟩

/-- Witness for C1 at a concrete input: the empty registry, a request
for `broken` whose child never binds its port; the 500 comes back, no
record exists, and the child (pid 0) is left running. -/
theorem c1_timeout_leaks_child_witness :
    ∃ s1 : MuxState,
      handlerLocked
          { apps := [], live := [], watchers := [], muHeld := false,
            spawns := 0, nextId := 0 }
          "broken".toList 7 LaunchEnv.probeTimeout
        = some (s1, Response.err500 LaunchErr.startupTimeout)
      ∧ s1.apps = []
      ∧ findRec "broken".toList s1.apps = none
      ∧ s1.live = [] ++ [0]
      ∧ s1.spawns = 0 + 1
      ∧ s1.muHeld = false :=
  c1_timeout_leaks_child
    { apps := [], live := [], watchers := [], muHeld := false, spawns := 0, nextId := 0 }
    "broken".toList 7 rfl rfl

/-! ## C2: the reaper -/

theorem reapLoop_stuck (now : Nat) :
    ∀ (l : List (List Char × AppRec)) (s : MuxState), s.muHeld = true →
      (∃ e ∈ l, idleTTL < now - e.2.t) → reapLoop now s l = none := by
  intro l
  induction l with
  | nil =>
    intro s _ h
    obtain ⟨e, he, _⟩ := h
    cases he
  | cons x rest ih =>
    intro s hmu h
    unfold reapLoop
    by_cases hidle : idleTTL < now - x.2.t
    · rw [if_pos hidle]
      unfold stopApp
      rw [hmu]
      simp
    · rw [if_neg hidle]
      refine ih s hmu ?_
      obtain ⟨e, he, hei⟩ := h
      rcases List.mem_cons.mp he with rfl | hrest
      · exact absurd hei hidle
      · exact ⟨e, hrest, hei⟩

/-- C2: the claim says every reaper tick removes and kills each record
idle longer than `idleTTL`.  The code deadlocks instead: the tick takes
`mu` and then calls `stopApp`, whose own `mu.Lock()` on the same
non-reentrant mutex blocks forever, so whenever any record is idle past
the TTL the tick never completes (`none`) — the record is never
removed, the mutex is never released, and every later request blocks. -/
theorem c2_reaper_deadlocks (s : MuxState) (now : Nat)
    (hmu : s.muHeld = false)
    (hidle : ∃ e ∈ s.apps, idleTTL < now - e.2.t) :
    reapTick now s = none := by
  unfold reapTick
  rw [hmu]
  simp only [Bool.false_eq_true, if_false]
  exact reapLoop_stuck now s.apps { s with muHeld := true } rfl hidle

/-- Witness for C2 at a concrete input: a registry holding `hello`
last used at time 0, swept at time 631 s (past the 600 s TTL): the
tick deadlocks. -/
theorem c2_reaper_deadlocks_witness :
    reapTick 631
        { apps := [("hello".toList, { name := "hello".toList, pid := 0, wid := 1, t := 0 })],
          live := [0], watchers := [1], muHeld := false, spawns := 1, nextId := 2 }
      = none :=
  c2_reaper_deadlocks
    { apps := [("hello".toList, { name := "hello".toList, pid := 0, wid := 1, t := 0 })],
      live := [0], watchers := [1], muHeld := false, spawns := 1, nextId := 2 }
    631 rfl
    ⟨("hello".toList, { name := "hello".toList, pid := 0, wid := 1, t := 0 }),
      by decide, by decide⟩

/-! ## C3: one record per name, one spawn per concurrent cold start -/

theorem handlerLocked_keysNodup (s : MuxState) (name : List Char) (now : Nat)
    (env : LaunchEnv) (out : MuxState × Response)
    (h : handlerLocked s name now env = some out) (hnd : keysNodup s.apps) :
    keysNodup out.1.apps := by
  unfold handlerLocked at h
  by_cases hmu : s.muHeld = true
  · rw [if_pos hmu] at h
    cases h
  · rw [if_neg hmu] at h
    cases hfind : findRec name s.apps with
    | some a =>
      rw [hfind] at h
      obtain rfl := Option.some.inj h
      exact keysNodup_insertRec _ _ _ hnd
    | none =>
      rw [hfind] at h
      cases env <;> simp only [startApp, spawnChild, openWatcher] at h <;>
        obtain rfl := Option.some.inj h <;>
        first
        | exact hnd
        | exact keysNodup_insertRec _ _ _ hnd

theorem stopApp_keysNodup (s : MuxState) (a : AppRec) (s1 : MuxState)
    (h : stopApp s a = some s1) (hnd : keysNodup s.apps) : keysNodup s1.apps := by
  unfold stopApp at h
  by_cases hmu : s.muHeld = true
  · rw [if_pos hmu] at h
    cases h
  · rw [if_neg hmu] at h
    obtain rfl := Option.some.inj h
    exact keysNodup_removeKey _ _ hnd

theorem handlerLocked_touch (s : MuxState) (name : List Char) (now : Nat)
    (env : LaunchEnv) (a : AppRec)
    (hmu : s.muHeld = false) (hfind : findRec name s.apps = some a) :
    handlerLocked s name now env
      = some ({ s with apps := insertRec name { a with t := now } s.apps, muHeld := false },
              Response.proxied name) := by
  unfold handlerLocked
  rw [hmu]
  simp only [Bool.false_eq_true, if_false]
  rw [hfind]

theorem handlerLocked_launch (s : MuxState) (name : List Char) (now : Nat)
    (hmu : s.muHeld = false) (hnone : findRec name s.apps = none) :
    handlerLocked s name now LaunchEnv.ready
      = some ({ s with apps := insertRec name { name := name, pid := s.nextId, wid := s.nextId + 1, t := now } s.apps, live := s.live ++ [s.nextId], watchers := s.watchers ++ [s.nextId + 1], muHeld := false, spawns := s.spawns + 1, nextId := s.nextId + 2 },
              Response.proxied name) := by
  unfold handlerLocked
  rw [hmu]
  simp only [Bool.false_eq_true, if_false]
  rw [hnone]
  rfl

/-- C3: the registry holds at most one record per name — both the
handler's critical section and `stopApp` preserve distinctness of the
registry keys — and because the registry mutex is held from the lookup
across the launch and the map insert, the critical sections of
concurrent first requests for the same name serialise into one atomic
step each: in either order, the first request launches (one spawn) and
the second finds the record and only touches it, so exactly one child
is spawned in total. -/
theorem c3_registry_unique_single_spawn :
    (∀ (s : MuxState) (name : List Char) (now : Nat) (env : LaunchEnv)
        (out : MuxState × Response),
      handlerLocked s name now env = some out → keysNodup s.apps → keysNodup out.1.apps)
    ∧ (∀ (s : MuxState) (a : AppRec) (s1 : MuxState),
      stopApp s a = some s1 → keysNodup s.apps → keysNodup s1.apps)
    ∧ ∀ (s : MuxState) (name : List Char) (now1 now2 : Nat) (env2 : LaunchEnv),
        s.muHeld = false → findRec name s.apps = none →
        ∃ (s1 s2 : MuxState) (r2 : Response),
          handlerLocked s name now1 LaunchEnv.ready = some (s1, Response.proxied name)
          ∧ handlerLocked s1 name now2 env2 = some (s2, r2)
          ∧ s1.spawns = s.spawns + 1
          ∧ s2.spawns = s.spawns + 1 := by
  refine ⟨fun s name now env out h hnd => handlerLocked_keysNodup s name now env out h hnd,
    fun s a s1 h hnd => stopApp_keysNodup s a s1 h hnd,
    fun s name now1 now2 env2 hmu hnone => ?_⟩
  have h1 := handlerLocked_launch s name now1 hmu hnone
  have hfind : findRec name
      ({ s with apps := insertRec name { name := name, pid := s.nextId, wid := s.nextId + 1, t := now1 } s.apps, live := s.live ++ [s.nextId], watchers := s.watchers ++ [s.nextId + 1], muHeld := false, spawns := s.spawns + 1, nextId := s.nextId + 2 } : MuxState).apps
      = some { name := name, pid := s.nextId, wid := s.nextId + 1, t := now1 } :=
    findRec_insertRec name _ s.apps
  have h2 := handlerLocked_touch
    { s with apps := insertRec name { name := name, pid := s.nextId, wid := s.nextId + 1, t := now1 } s.apps, live := s.live ++ [s.nextId], watchers := s.watchers ++ [s.nextId + 1], muHeld := false, spawns := s.spawns + 1, nextId := s.nextId + 2 }
    name now2 env2 { name := name, pid := s.nextId, wid := s.nextId + 1, t := now1 }
    rfl hfind
  exact ⟨_, _, _, h1, h2, rfl, rfl⟩

/-- Witness for C3 at a concrete input: two back-to-back requests for
`hello` against the empty registry spawn exactly one child. -/
theorem c3_registry_unique_single_spawn_witness :
    ∃ (s1 s2 : MuxState) (r2 : Response),
      handlerLocked
          { apps := [], live := [], watchers := [], muHeld := false, spawns := 0, nextId := 0 }
          "hello".toList 1 LaunchEnv.ready = some (s1, Response.proxied "hello".toList)
      ∧ handlerLocked s1 "hello".toList 2 LaunchEnv.ready = some (s2, r2)
      ∧ s1.spawns = 0 + 1
      ∧ s2.spawns = 0 + 1 :=
  c3_registry_unique_single_spawn.2.2
    { apps := [], live := [], watchers := [], muHeld := false, spawns := 0, nextId := 0 }
    "hello".toList 1 2 LaunchEnv.ready rfl rfl

end Mux
